import Mathlib

/-!
Verification development for the motion-detection / viewport-tracking core
(`src/viewport_tracker.py`, `src/motion_detector.py`).

Embedding conventions:
* Python integers are `ℤ`.  Python floor division `a // b` is `Int.fdiv a b`.
* Python floats (the smoothing factor, and `weighted / total` in the
  centroid) are modelled as exact rationals `ℚ`; `int(e)` — truncation
  toward zero — is `truncQ`.
* A bounding box `(x, y, w, h)` is the structure `Box`.
* `frame_shape` is `(height, width)`; the embedding passes `frameH` and
  `frameW` as separate arguments in that order.
-/

/-- Truncation toward zero of a rational, Python's `int(...)` on a float
(the float arithmetic itself is modelled as exact rational arithmetic). -/
def truncQ (q : ℚ) : ℤ :=
  q.num.tdiv (q.den : ℤ)

/-- A motion bounding box `(x, y, w, h)`: top-left corner and dimensions. -/
structure Box where
  x : ℤ
  y : ℤ
  w : ℤ
  h : ℤ
deriving DecidableEq, Repr

/-- `area = w * h` (viewport_tracker.py line 34). -/
def boxArea (b : Box) : ℤ := b.w * b.h

/-- `center_x = x + w // 2` (line 37). -/
def boxCenterX (b : Box) : ℤ := b.x + b.w.fdiv 2

/-- `center_y = y + h // 2` (line 38). -/
def boxCenterY (b : Box) : ℤ := b.y + b.h.fdiv 2

/-- Running total `total_area` accumulated by the loop at lines 32-48. -/
def totalArea (boxes : List Box) : ℤ :=
  (boxes.map boxArea).sum

/-- Running sum `weighted_x` accumulated at line 41. -/
def weightedX (boxes : List Box) : ℤ :=
  (boxes.map (fun b => boxCenterX b * boxArea b)).sum

/-- Running sum `weighted_y` accumulated at line 42. -/
def weightedY (boxes : List Box) : ℤ :=
  (boxes.map (fun b => boxCenterY b * boxArea b)).sum

/-- The `largest_box` / `max_area` tracking of lines 29-30 and 45-48:
fold over the boxes, replacing the candidate only on strictly larger area. -/
def largestBoxAux : List Box → ℤ → Option Box → Option Box
  | [], _, acc => acc
  | b :: rest, maxA, acc =>
      if maxA < boxArea b then largestBoxAux rest (boxArea b) (some b)
      else largestBoxAux rest maxA acc

/-- `largest_box` after the whole loop (`max_area` starts at 0, `largest_box`
at `None`). -/
def largestBox (boxes : List Box) : Option Box :=
  largestBoxAux boxes 0 none

/-- `min(box[0] for box in boxes)` (line 56); only evaluated on non-empty
lists in the source, 0 on `[]` is an unreachable default. -/
def minXs : List Box → ℤ
  | [] => 0
  | b :: rest => rest.foldl (fun m c => min m c.x) b.x

/-- `min(box[1] for box in boxes)` (line 57). -/
def minYs : List Box → ℤ
  | [] => 0
  | b :: rest => rest.foldl (fun m c => min m c.y) b.y

/-- `max(box[0] + box[2] for box in boxes)` (line 58). -/
def maxXs : List Box → ℤ
  | [] => 0
  | b :: rest => rest.foldl (fun m c => max m (c.x + c.w)) (b.x + b.w)

/-- `max(box[1] + box[3] for box in boxes)` (line 59). -/
def maxYs : List Box → ℤ
  | [] => 0
  | b :: rest => rest.foldl (fun m c => max m (c.y + c.h)) (b.y + b.h)

/-- `calculate_region_of_interest(motion_boxes, frame_shape)`
(viewport_tracker.py lines 9-73).  Returns `(center_x, center_y, w, h)`.
`frame_shape[:2]` is `(height, width)`, passed here as `frameH`, `frameW`. -/
def calculate_region_of_interest (boxes : List Box) (frameH frameW : ℤ) :
    ℤ × ℤ × ℤ × ℤ :=
  if boxes = [] then
    (frameW.fdiv 2, frameH.fdiv 2, 0, 0)
  else if 0 < totalArea boxes then
    (truncQ ((weightedX boxes : ℚ) / (totalArea boxes : ℚ)),
     truncQ ((weightedY boxes : ℚ) / (totalArea boxes : ℚ)),
     maxXs boxes - minXs boxes,
     maxYs boxes - minYs boxes)
  else
    match largestBox boxes with
    | some b => (boxCenterX b, boxCenterY b, b.w, b.h)
    | none => (frameW.fdiv 2, frameH.fdiv 2, 0, 0)

/-- `min_x = half_vp_width` (line 125): lower clamp bound. -/
def minXBound (vpW : ℤ) : ℤ := vpW.fdiv 2

/-- `max_x = frame_width - half_vp_width` (line 126): upper clamp bound. -/
def maxXBound (frameW vpW : ℤ) : ℤ := frameW - vpW.fdiv 2

/-- `max(lo, min(hi, v))` — the constraint pattern of lines 127 and 132. -/
def clampI (lo hi v : ℤ) : ℤ := max lo (min hi v)

/-- `int(prev * (1 - smoothing_factor) + target * smoothing_factor)`
(lines 116-117), with the float arithmetic modelled exactly in `ℚ`. -/
def smoothVal (f : ℚ) (prev target : ℤ) : ℤ :=
  truncQ ((prev : ℚ) * (1 - f) + (target : ℚ) * f)

/-- One iteration of the tracking loop (lines 103-139): ROI, smoothing of
both coordinates, clamping; returns the emitted (and stored) position. -/
def trackStep (frameW frameH vpW vpH : ℤ) (f : ℚ) (prev : ℤ × ℤ)
    (boxes : List Box) : ℤ × ℤ :=
  let roi := calculate_region_of_interest boxes frameH frameW
  (clampI (minXBound vpW) (maxXBound frameW vpW) (smoothVal f prev.1 roi.1),
   clampI (minXBound vpH) (maxXBound frameH vpH) (smoothVal f prev.2 roi.2.1))

/-- The loop of lines 103-139 as a recursion carrying `(prev_x, prev_y)`. -/
def trackAux (frameW frameH vpW vpH : ℤ) (f : ℚ) (prev : ℤ × ℤ) :
    List (List Box) → List (ℤ × ℤ)
  | [] => []
  | bs :: rest =>
      let p := trackStep frameW frameH vpW vpH f prev bs
      p :: trackAux frameW frameH vpW vpH f p rest

/-- `track_viewport(frames, motion_results, viewport_size, smoothing_factor)`
(lines 76-141).  The frames only contribute their (sequence-constant)
dimensions `frame_height, frame_width = frames[0].shape[:2]`, so the
embedding takes `frameW`, `frameH` directly; `motionResults` is the ordered
per-frame sequence of box sets the loop iterates over. -/
def track_viewport (frameW frameH : ℤ) (motionResults : List (List Box))
    (vpW vpH : ℤ) (f : ℚ) : List (ℤ × ℤ) :=
  trackAux frameW frameH vpW vpH f (frameW.fdiv 2, frameH.fdiv 2) motionResults

/-- `detect_motion(frames, frame_idx, threshold, min_area)`
(motion_detector.py lines 11-73).  Lines 24-26 are the guard
`if frame_idx < 1 or frame_idx >= len(frames): return []`.  The image
pipeline of lines 28-73 (grayscale, Gaussian blur, thresholding,
morphology, labeling — floating-point image processing) is abstracted as
the parameter `body`, invoked exactly when the guard passes; the claims
about this function concern only the guard. -/
def detect_motion (numFrames : ℕ) (frameIdx : ℤ) (threshold : ℚ)
    (minArea : ℤ) (body : ℤ → ℚ → ℤ → List Box) : List Box :=
  if frameIdx < 1 ∨ (numFrames : ℤ) ≤ frameIdx then []
  else body frameIdx threshold minArea

/-! ### Helper lemmas -/

theorem truncQ_eq (q : ℚ) : truncQ q = if 0 ≤ q then ⌊q⌋ else ⌈q⌉ := by
  unfold truncQ
  have hden : (0 : ℤ) ≤ (q.den : ℤ) := by positivity
  split
  · next h =>
    have hnum : 0 ≤ q.num := Rat.num_nonneg.mpr h
    rw [Int.tdiv_eq_ediv hnum hden, Rat.floor_def]
  · next h =>
    push_neg at h
    have hnum : q.num ≤ 0 := by
      by_contra hc
      push_neg at hc
      exact absurd (Rat.num_nonneg.mp hc.le) h.not_le
    have h1 : q.num.tdiv (q.den : ℤ) = -((-q.num).tdiv (q.den : ℤ)) := by
      rw [Int.neg_tdiv, neg_neg]
    have h2 : ⌊-q⌋ = (-q.num) / (q.den : ℤ) := by
      rw [Rat.floor_def, Rat.num_neg_eq_neg_num, Rat.den_neg_eq_den]
    have h3 : (⌈q⌉ : ℤ) = -⌊-q⌋ := by
      rw [Int.floor_neg]; ring
    rw [h1, Int.tdiv_eq_ediv (by omega) hden, h3, h2]

theorem truncQ_intCast (a : ℤ) : truncQ (a : ℚ) = a := by
  rw [truncQ_eq]
  split <;> simp

theorem truncQ_between {a b : ℤ} {s : ℚ} (h1 : (a : ℚ) ≤ s) (h2 : s ≤ (b : ℚ)) :
    a ≤ truncQ s ∧ truncQ s ≤ b := by
  rw [truncQ_eq]
  split
  · refine ⟨Int.le_floor.mpr h1, ?_⟩
    have hb := Int.floor_mono h2
    simpa using hb
  · refine ⟨?_, Int.ceil_le.mpr h2⟩
    have ha := Int.ceil_mono h1
    simpa using ha

theorem fdiv_two_eq (a : ℤ) : a.fdiv 2 = a / 2 :=
  Int.fdiv_eq_ediv a (by norm_num)

theorem trackAux_length (fw fh vw vh : ℤ) (f : ℚ) (l : List (List Box)) :
    ∀ prev, (trackAux fw fh vw vh f prev l).length = l.length := by
  induction l with
  | nil => intro prev; rfl
  | cons bs rest ih =>
      intro prev
      simp only [trackAux, List.length_cons]
      rw [ih]

theorem trackAux_getD (fw fh vw vh : ℤ) (f : ℚ) (l : List (List Box)) :
    ∀ (prev : ℤ × ℤ) (i : ℕ), i < l.length →
      (trackAux fw fh vw vh f prev l).getD i (0, 0) =
        trackStep fw fh vw vh f
          (if i = 0 then prev
           else (trackAux fw fh vw vh f prev l).getD (i - 1) (0, 0))
          (l.getD i []) := by
  induction l with
  | nil => intro prev i hi; simp at hi
  | cons bs rest ih =>
      intro prev i hi
      match i with
      | 0 => simp [trackAux]
      | j + 1 =>
          have hj : j < rest.length := by
            simpa [Nat.succ_lt_succ_iff] using hi
          simp only [trackAux, List.getD_cons_succ]
          rw [ih _ j hj]
          match j with
          | 0 => simp [trackAux]
          | k + 1 => simp [trackAux]

theorem mem_trackAux (fw fh vw vh : ℤ) (f : ℚ) (l : List (List Box)) :
    ∀ prev p, p ∈ trackAux fw fh vw vh f prev l →
      ∃ prev2 bs, p = trackStep fw fh vw vh f prev2 bs := by
  induction l with
  | nil => intro prev p hp; simp [trackAux] at hp
  | cons bs rest ih =>
      intro prev p hp
      simp only [trackAux, List.mem_cons] at hp
      rcases hp with rfl | hp
      · exact ⟨prev, bs, rfl⟩
      · exact ih _ p hp

theorem clampI_mem {lo hi : ℤ} (v : ℤ) (h : lo ≤ hi) :
    lo ≤ clampI lo hi v ∧ clampI lo hi v ≤ hi := by
  unfold clampI
  omega

theorem clampI_between {lo hi a b : ℤ} (v : ℤ) (hlo : lo ≤ a) (hhi : a ≤ hi)
    (h1 : min a b ≤ v) (h2 : v ≤ max a b) :
    min a b ≤ clampI lo hi v ∧ clampI lo hi v ≤ max a b := by
  unfold clampI
  omega

theorem smoothVal_between {f : ℚ} (hf0 : 0 ≤ f) (hf1 : f ≤ 1) (p t : ℤ) :
    min p t ≤ smoothVal f p t ∧ smoothVal f p t ≤ max p t := by
  unfold smoothVal
  have hmin : ((min p t : ℤ) : ℚ) ≤ (p : ℚ) * (1 - f) + (t : ℚ) * f := by
    have hp : ((min p t : ℤ) : ℚ) ≤ (p : ℚ) := by exact_mod_cast min_le_left p t
    have ht : ((min p t : ℤ) : ℚ) ≤ (t : ℚ) := by exact_mod_cast min_le_right p t
    nlinarith [mul_nonneg (sub_nonneg.mpr hp) (sub_nonneg.mpr hf1),
      mul_nonneg (sub_nonneg.mpr ht) hf0]
  have hmax : (p : ℚ) * (1 - f) + (t : ℚ) * f ≤ ((max p t : ℤ) : ℚ) := by
    have hp : (p : ℚ) ≤ ((max p t : ℤ) : ℚ) := by exact_mod_cast le_max_left p t
    have ht : (t : ℚ) ≤ ((max p t : ℤ) : ℚ) := by exact_mod_cast le_max_right p t
    nlinarith [mul_nonneg (sub_nonneg.mpr hp) (sub_nonneg.mpr hf1),
      mul_nonneg (sub_nonneg.mpr ht) hf0]
  exact truncQ_between hmin hmax

theorem clamp_smooth_between {lo hi p t : ℤ} {f : ℚ} (hf0 : 0 ≤ f) (hf1 : f ≤ 1)
    (hlo : lo ≤ p) (hhi : p ≤ hi) :
    min p t ≤ clampI lo hi (smoothVal f p t) ∧
      clampI lo hi (smoothVal f p t) ≤ max p t := by
  obtain ⟨h1, h2⟩ := smoothVal_between hf0 hf1 p t
  exact clampI_between _ hlo hhi h1 h2

theorem smoothVal_one (p t : ℤ) : smoothVal 1 p t = t := by
  unfold smoothVal
  rw [show (p : ℚ) * (1 - 1) + (t : ℚ) * 1 = ((t : ℤ) : ℚ) by ring]
  exact truncQ_intCast t

/-! ### C5: aggregate of the empty box list -/

/-- **C5.** For every frame height and width, aggregating an empty box set
returns the frame's geometric center with zero width and height — a normal
result of `calculate_region_of_interest`, not an error. -/
theorem C5_empty_boxes_frame_center (frameH frameW : ℤ) :
    calculate_region_of_interest [] frameH frameW =
      (frameW.fdiv 2, frameH.fdiv 2, 0, 0) := by
  simp [calculate_region_of_interest]

/-! ### C1: the tracker recurrence -/

/-- **C1.** For every frame size, viewport size, smoothing factor
`f ∈ (0,1]` and ordered sequence of per-frame box sets, the tracker emits
exactly one position per input frame, processed in index order, by the
recurrence: the state starts at `(frameWidth/2, frameHeight/2)`; each
frame's target is the ROI center of that frame's box set; the smoothed
value `prev*(1-f) + target*f` (per coordinate) is truncated toward zero,
clamped to the viewport bounds, emitted, and stored as the new state. -/
theorem C1_tracker_recurrence (fw fh vw vh : ℤ) (boxes : List (List Box))
    (f : ℚ) (hf : 0 < f ∧ f ≤ 1) :
    (track_viewport fw fh boxes vw vh f).length = boxes.length ∧
    ∀ i, i < boxes.length →
      (track_viewport fw fh boxes vw vh f).getD i (0, 0) =
        (let prev := if i = 0 then (fw.fdiv 2, fh.fdiv 2)
          else (track_viewport fw fh boxes vw vh f).getD (i - 1) (0, 0)
        let roi := calculate_region_of_interest (boxes.getD i []) fh fw
        (clampI (vw.fdiv 2) (fw - vw.fdiv 2)
           (truncQ ((prev.1 : ℚ) * (1 - f) + (roi.1 : ℚ) * f)),
         clampI (vh.fdiv 2) (fh - vh.fdiv 2)
           (truncQ ((prev.2 : ℚ) * (1 - f) + (roi.2.1 : ℚ) * f)))) := by
  refine ⟨trackAux_length fw fh vw vh f boxes _, ?_⟩
  intro i hi
  simp only [track_viewport]
  rw [trackAux_getD fw fh vw vh f boxes _ i hi]
  rfl

/-- Witness for C1 at the spec's end-to-end scenario parameters. -/
theorem C1_tracker_recurrence_witness :
    (0 < (3 / 10 : ℚ) ∧ (3 / 10 : ℚ) ≤ 1) ∧
    (track_viewport 640 480 [[⟨100, 100, 50, 50⟩]] 200 150 (3 / 10)).length
      = 1 :=
  ⟨⟨by norm_num, by norm_num⟩,
   (C1_tracker_recurrence 640 480 200 150 [[⟨100, 100, 50, 50⟩]] (3 / 10)
     ⟨by norm_num, by norm_num⟩).1⟩

/-! ### C3: viewport sized exactly to the frame -/

/-- Concrete ROI evaluation used by the C3 counterexample. -/
theorem roiFourFourOneOne :
    calculate_region_of_interest [⟨4, 4, 1, 1⟩] 5 5 = (4, 4, 1, 1) := by
  have h1 : Int.fdiv 1 2 = 0 := by decide
  simp only [calculate_region_of_interest, totalArea, weightedX, weightedY, boxArea,
    boxCenterX, boxCenterY, minXs, minYs, maxXs, maxYs, List.map_cons, List.map_nil,
    List.sum_cons, List.sum_nil, List.foldl, h1]
  norm_num
  rw [show (4 : ℚ) = ((4 : ℤ) : ℚ) by norm_num]
  rw [truncQ_intCast]

/-- **C3 is false as stated.**  With an odd 5×5 frame, a 5×5 viewport and
`f = 1`, the box `(4,4,1,1)` drives the emitted position to `(3,3)`, which
is not the frame center `(5//2, 5//2) = (2,2)`: the clamp interval
`[5//2, 5 - 5//2] = [2,3]` is not the single point `frameWidth/2` when the
frame dimension is odd. -/
theorem C3_counterexample :
    track_viewport 5 5 [[⟨4, 4, 1, 1⟩]] 5 5 1 = [(3, 3)] ∧
    ¬ ((3 : ℤ), (3 : ℤ)) = ((5 : ℤ).fdiv 2, (5 : ℤ).fdiv 2) := by
  constructor
  · simp only [track_viewport, trackAux, trackStep, roiFourFourOneOne,
      minXBound, maxXBound]
    rw [smoothVal_one]
    decide
  · decide

/-- **C3 (amended).** When the viewport dimensions equal the frame
dimensions and both frame dimensions are even, every emitted position
equals the frame center `(frameWidth/2, frameHeight/2)`, for all input box
sequences and all smoothing factors. -/
theorem C3_viewport_equals_frame (fw fh : ℤ) (boxes : List (List Box))
    (f : ℚ) (hw : 2 ∣ fw) (hh : 2 ∣ fh) :
    ∀ p ∈ track_viewport fw fh boxes fw fh f,
      p = (fw.fdiv 2, fh.fdiv 2) := by
  obtain ⟨kw, hkw⟩ := hw
  obtain ⟨kh, hkh⟩ := hh
  intro p hp
  obtain ⟨prev2, bs, rfl⟩ := mem_trackAux fw fh fw fh f boxes _ p hp
  simp only [trackStep, clampI, minXBound, maxXBound, fdiv_two_eq, Prod.mk.injEq]
  subst hkw hkh
  constructor <;> omega

/-- Witness for the amended C3 on a 4×4 frame with a 4×4 viewport. -/
theorem C3_viewport_equals_frame_witness :
    (2 ∣ (4 : ℤ)) ∧
    ∀ p ∈ track_viewport 4 4 [[⟨0, 0, 1, 1⟩]] 4 4 (1 / 2),
      p = ((4 : ℤ).fdiv 2, (4 : ℤ).fdiv 2) :=
  ⟨⟨2, by norm_num⟩,
   C3_viewport_equals_frame 4 4 [[⟨0, 0, 1, 1⟩]] (1 / 2)
     ⟨2, by norm_num⟩ ⟨2, by norm_num⟩⟩

/-! ### C4: viewport larger than the frame -/

/-- **C4 is false as stated.**  At `frameWidth = 4 < 5 = viewportWidth` the
clamp bounds do *not* invert: `min_x = 5//2 = 2` and
`max_x = 4 - 5//2 = 2` coincide, so the claimed `min > max` fails (the
emitted coordinate still equals the lower bound, see the amended form). -/
theorem C4_counterexample :
    (4 : ℤ) < 5 ∧ ¬ maxXBound 4 5 < minXBound 5 := by
  exact ⟨by decide, by decide⟩

/-- **C4 (amended).** When `viewportWidth > frameWidth` (resp. height), the
clamp bounds satisfy `max ≤ min` (inverting or coinciding), and every
emitted x (resp. y) coordinate equals the lower clamp bound
`viewportWidth/2` (resp. `viewportHeight/2`), for every input box sequence
and smoothing factor. -/
theorem C4_oversized_viewport (fw fh vw vh : ℤ) (boxes : List (List Box))
    (f : ℚ) :
    (fw < vw → maxXBound fw vw ≤ minXBound vw ∧
      ∀ p ∈ track_viewport fw fh boxes vw vh f, p.1 = vw.fdiv 2) ∧
    (fh < vh → maxXBound fh vh ≤ minXBound vh ∧
      ∀ p ∈ track_viewport fw fh boxes vw vh f, p.2 = vh.fdiv 2) := by
  constructor
  · intro hlt
    have hb : maxXBound fw vw ≤ minXBound vw := by
      simp only [maxXBound, minXBound, fdiv_two_eq]
      omega
    refine ⟨hb, ?_⟩
    intro p hp
    obtain ⟨prev2, bs, rfl⟩ := mem_trackAux fw fh vw vh f boxes _ p hp
    simp only [trackStep, clampI, minXBound, maxXBound, fdiv_two_eq] at *
    omega
  · intro hlt
    have hb : maxXBound fh vh ≤ minXBound vh := by
      simp only [maxXBound, minXBound, fdiv_two_eq]
      omega
    refine ⟨hb, ?_⟩
    intro p hp
    obtain ⟨prev2, bs, rfl⟩ := mem_trackAux fw fh vw vh f boxes _ p hp
    simp only [trackStep, clampI, minXBound, maxXBound, fdiv_two_eq] at *
    omega

/-- Witness for the amended C4: 4×4 frame, 6×6 viewport. -/
theorem C4_oversized_viewport_witness :
    (4 : ℤ) < 6 ∧
    (maxXBound 4 6 ≤ minXBound 6 ∧
      ∀ p ∈ track_viewport 4 4 [[⟨0, 0, 1, 1⟩]] 6 6 (1 / 2),
        p.1 = (6 : ℤ).fdiv 2) :=
  ⟨by decide,
   (C4_oversized_viewport 4 4 6 6 [[⟨0, 0, 1, 1⟩]] (1 / 2)).1 (by decide)⟩

/-! ### C2: constant target — monotone approach, f = 1 snap -/

/-- Concrete ROI evaluation used by the C2 counterexample: a single 2×2 box
at the origin has center `(1,1)`. -/
theorem roiSmallBox :
    calculate_region_of_interest [⟨0, 0, 2, 2⟩] 100 100 = (1, 1, 2, 2) := by
  have h1 : Int.fdiv 2 2 = 1 := by decide
  simp only [calculate_region_of_interest, totalArea, weightedX, weightedY, boxArea,
    boxCenterX, boxCenterY, minXs, minYs, maxXs, maxYs, List.map_cons, List.map_nil,
    List.sum_cons, List.sum_nil, List.foldl, h1]
  norm_num
  rw [show (1 : ℚ) = ((1 : ℤ) : ℚ) by norm_num]
  rw [truncQ_intCast]

/-- **C2 is false as stated.**  For the constant ROI of box `(0,0,2,2)`
(target center `(1,1)`) on a 100×100 frame with a 60×60 viewport and
`f = 1`, the frame-1 position is the clamp bound `(30,30)`, not the target
center: clamping keeps the position away from a target center outside
`[viewportWidth/2, frameWidth − viewportWidth/2]`. -/
theorem C2_counterexample :
    (calculate_region_of_interest [⟨0, 0, 2, 2⟩] 100 100).1 = 1 ∧
    (calculate_region_of_interest [⟨0, 0, 2, 2⟩] 100 100).2.1 = 1 ∧
    track_viewport 100 100 [[⟨0, 0, 2, 2⟩]] 60 60 1 = [(30, 30)] ∧
    ((30 : ℤ), (30 : ℤ)) ≠ (1, 1) := by
  refine ⟨by rw [roiSmallBox], by rw [roiSmallBox], ?_, by decide⟩
  simp only [track_viewport, trackAux, trackStep, roiSmallBox, minXBound, maxXBound]
  rw [smoothVal_one]
  decide

/-- **C2 (amended).** For a constant box set `b` repeated over `n` frames,
provided the viewport fits in the frame (`vw ≤ fw`, `vh ≤ fh`) and
`f ∈ (0,1]`: every emitted coordinate lies between the previous position
and the target center (per-step monotone approach without overshoot or
oscillation), and with `f = 1` every frame's position — frame 1 included —
equals the target center clamped to the viewport bounds (hence equals the
target center itself whenever that center lies within the bounds). -/
theorem C2_constant_target (fw fh vw vh : ℤ) (b : List Box) (n : ℕ) (f : ℚ)
    (hvw : vw ≤ fw) (hvh : vh ≤ fh) (hf0 : 0 < f) (hf1 : f ≤ 1) :
    let out := track_viewport fw fh (List.replicate n b) vw vh f
    let t := calculate_region_of_interest b fh fw
    (∀ i, i < n →
      let prev := if i = 0 then (fw.fdiv 2, fh.fdiv 2)
        else out.getD (i - 1) (0, 0)
      (min prev.1 t.1 ≤ (out.getD i (0, 0)).1 ∧
        (out.getD i (0, 0)).1 ≤ max prev.1 t.1) ∧
      (min prev.2 t.2.1 ≤ (out.getD i (0, 0)).2 ∧
        (out.getD i (0, 0)).2 ≤ max prev.2 t.2.1)) ∧
    (f = 1 → ∀ i, i < n →
      out.getD i (0, 0) =
        (clampI (vw.fdiv 2) (fw - vw.fdiv 2) t.1,
         clampI (vh.fdiv 2) (fh - vh.fdiv 2) t.2.1)) := by
  intro out t
  have hlen : (List.replicate n b).length = n := List.length_replicate n b
  have hrep : ∀ i, i < n → (List.replicate n b).getD i [] = b := by
    intro i hi
    simp [List.getD, List.getElem?_replicate, hi]
  have hchar : ∀ i, i < n → out.getD i (0, 0) =
      trackStep fw fh vw vh f
        (if i = 0 then (fw.fdiv 2, fh.fdiv 2) else out.getD (i - 1) (0, 0)) b := by
    intro i hi
    have h := trackAux_getD fw fh vw vh f (List.replicate n b)
      (fw.fdiv 2, fh.fdiv 2) i (by rw [hlen]; exact hi)
    rw [hrep i hi] at h
    exact h
  have hboundX : minXBound vw ≤ maxXBound fw vw := by
    simp only [minXBound, maxXBound, fdiv_two_eq]
    omega
  have hboundY : minXBound vh ≤ maxXBound fh vh := by
    simp only [minXBound, maxXBound, fdiv_two_eq]
    omega
  have hprev : ∀ i, i < n →
      (minXBound vw ≤ (if i = 0 then (fw.fdiv 2, fh.fdiv 2)
          else out.getD (i - 1) (0, 0)).1 ∧
        (if i = 0 then (fw.fdiv 2, fh.fdiv 2)
          else out.getD (i - 1) (0, 0)).1 ≤ maxXBound fw vw) ∧
      (minXBound vh ≤ (if i = 0 then (fw.fdiv 2, fh.fdiv 2)
          else out.getD (i - 1) (0, 0)).2 ∧
        (if i = 0 then (fw.fdiv 2, fh.fdiv 2)
          else out.getD (i - 1) (0, 0)).2 ≤ maxXBound fh vh) := by
    intro i hi
    by_cases h0 : i = 0
    · simp only [if_pos h0]
      simp only [minXBound, maxXBound, fdiv_two_eq]
      constructor <;> constructor <;> omega
    · simp only [if_neg h0]
      have hi1 : i - 1 < n := by omega
      rw [hchar (i - 1) hi1]
      simp only [trackStep]
      exact ⟨clampI_mem _ hboundX, clampI_mem _ hboundY⟩
  constructor
  · intro i hi
    intro prev
    rw [hchar i hi]
    simp only [trackStep]
    obtain ⟨⟨hx1, hx2⟩, ⟨hy1, hy2⟩⟩ := hprev i hi
    exact ⟨clamp_smooth_between hf0.le hf1 hx1 hx2,
      clamp_smooth_between hf0.le hf1 hy1 hy2⟩
  · intro hfone i hi
    rw [hchar i hi]
    subst hfone
    simp only [trackStep, smoothVal_one, minXBound, maxXBound]

/-- Witness for the amended C2 at the spec's end-to-end scenario. -/
theorem C2_constant_target_witness :
    ((200 : ℤ) ≤ 640 ∧ (150 : ℤ) ≤ 480 ∧ 0 < (3 / 10 : ℚ) ∧ (3 / 10 : ℚ) ≤ 1) ∧
    (let out := track_viewport 640 480
        (List.replicate 3 [⟨100, 100, 50, 50⟩]) 200 150 (3 / 10)
     let t := calculate_region_of_interest [⟨100, 100, 50, 50⟩] 480 640
     (∀ i, i < 3 →
       let prev := if i = 0 then ((640 : ℤ).fdiv 2, (480 : ℤ).fdiv 2)
         else out.getD (i - 1) (0, 0)
       (min prev.1 t.1 ≤ (out.getD i (0, 0)).1 ∧
         (out.getD i (0, 0)).1 ≤ max prev.1 t.1) ∧
       (min prev.2 t.2.1 ≤ (out.getD i (0, 0)).2 ∧
         (out.getD i (0, 0)).2 ≤ max prev.2 t.2.1)) ∧
     ((3 / 10 : ℚ) = 1 → ∀ i, i < 3 →
       out.getD i (0, 0) =
         (clampI ((200 : ℤ).fdiv 2) (640 - (200 : ℤ).fdiv 2) t.1,
          clampI ((150 : ℤ).fdiv 2) (480 - (150 : ℤ).fdiv 2) t.2.1))) :=
  ⟨⟨by norm_num, by norm_num, by norm_num, by norm_num⟩,
   C2_constant_target 640 480 200 150 [⟨100, 100, 50, 50⟩] 3 (3 / 10)
     (by norm_num) (by norm_num) (by norm_num) (by norm_num)⟩

/-! ### Aggregator fallback lemmas (C6, C7, C10) -/

theorem largestBoxAux_eq_acc (l : List Box) :
    ∀ (m : ℤ) (acc : Option Box), (∀ b ∈ l, boxArea b ≤ m) →
      largestBoxAux l m acc = acc := by
  induction l with
  | nil => intro m acc h; rfl
  | cons c rest ih =>
      intro m acc h
      have hc : boxArea c ≤ m := h c (by simp)
      simp only [largestBoxAux, if_neg (not_lt.mpr hc)]
      exact ih m acc fun d hd => h d (by simp [hd])

theorem totalArea_nonneg (l : List Box) (h : ∀ b ∈ l, 0 ≤ boxArea b) :
    0 ≤ totalArea l := by
  unfold totalArea
  apply List.sum_nonneg
  intro x hx
  obtain ⟨b, hb, rfl⟩ := List.mem_map.mp hx
  exact h b hb

theorem area_zero_of_sum_zero (l : List Box) (hnn : ∀ b ∈ l, 0 ≤ boxArea b)
    (ht : totalArea l = 0) : ∀ b ∈ l, boxArea b = 0 := by
  induction l with
  | nil => intro b hb; simp at hb
  | cons c rest ih =>
      have hsplit : totalArea (c :: rest) = boxArea c + totalArea rest := by
        simp [totalArea]
      have hrest : 0 ≤ totalArea rest :=
        totalArea_nonneg rest fun d hd => hnn d (by simp [hd])
      have hc : 0 ≤ boxArea c := hnn c (by simp)
      intro b hb
      rcases List.mem_cons.mp hb with rfl | hb2
      · omega
      · exact ih (fun d hd => hnn d (by simp [hd])) (by omega) b hb2

/-! ### C6: two equal-area boxes -/

/-- Concrete ROI evaluation used by the C6 counterexample: two unit boxes
with centers `(0,0)` and `(1,0)` aggregate to center `(0,0)` — the exact
midpoint `1/2` is truncated. -/
theorem roiTwoUnitBoxes :
    calculate_region_of_interest [⟨0, 0, 1, 1⟩, ⟨1, 0, 1, 1⟩] 100 100 =
      (0, 0, 2, 1) := by
  unfold calculate_region_of_interest
  rw [if_neg (by simp), if_pos (by decide)]
  rw [show weightedX [⟨0, 0, 1, 1⟩, ⟨1, 0, 1, 1⟩] = 1 from by decide]
  rw [show weightedY [⟨0, 0, 1, 1⟩, ⟨1, 0, 1, 1⟩] = 0 from by decide]
  rw [show totalArea [⟨0, 0, 1, 1⟩, ⟨1, 0, 1, 1⟩] = 2 from by decide]
  rw [show maxXs [⟨0, 0, 1, 1⟩, ⟨1, 0, 1, 1⟩] = 2 from by decide]
  rw [show maxYs [⟨0, 0, 1, 1⟩, ⟨1, 0, 1, 1⟩] = 1 from by decide]
  rw [show minXs [⟨0, 0, 1, 1⟩, ⟨1, 0, 1, 1⟩] = 0 from by decide]
  rw [show minYs [⟨0, 0, 1, 1⟩, ⟨1, 0, 1, 1⟩] = 0 from by decide]
  have hx : truncQ (((1 : ℤ) : ℚ) / ((2 : ℤ) : ℚ)) = 0 := by
    rw [truncQ_eq]
    rw [if_pos (by positivity)]
    rw [show ((1 : ℤ) : ℚ) / ((2 : ℤ) : ℚ) = 1 / 2 by norm_num]
    norm_num
  have hy : truncQ (((0 : ℤ) : ℚ) / ((2 : ℤ) : ℚ)) = 0 := by
    rw [show ((0 : ℤ) : ℚ) / ((2 : ℤ) : ℚ) = ((0 : ℤ) : ℚ) by norm_num]
    exact truncQ_intCast 0
  rw [hx, hy]
  norm_num

/-- **C6 is false as stated.**  The unit boxes `(0,0,1,1)` and `(1,0,1,1)`
have equal positive area and centers `(0,0)`, `(1,0)`; the exact midpoint
of the centers has x-coordinate `1/2`, but the aggregated ROI center's
x-coordinate is the truncated value `0`, not exactly the midpoint. -/
theorem C6_counterexample :
    boxArea ⟨0, 0, 1, 1⟩ = boxArea ⟨1, 0, 1, 1⟩ ∧
    0 < boxArea ⟨0, 0, 1, 1⟩ ∧
    calculate_region_of_interest [⟨0, 0, 1, 1⟩, ⟨1, 0, 1, 1⟩] 100 100 =
      (0, 0, 2, 1) ∧
    ((0 : ℤ) : ℚ) ≠
      ((boxCenterX ⟨0, 0, 1, 1⟩ : ℚ) + (boxCenterX ⟨1, 0, 1, 1⟩ : ℚ)) / 2 := by
  refine ⟨by decide, by decide, roiTwoUnitBoxes, ?_⟩
  have h1 : boxCenterX ⟨0, 0, 1, 1⟩ = 0 := by decide
  have h2 : boxCenterX ⟨1, 0, 1, 1⟩ = 1 := by decide
  rw [h1, h2]
  norm_num

/-- **C6 (amended).** For two boxes of equal positive area, the aggregated
ROI center is, in each coordinate, the midpoint of the two boxes' centers
truncated toward zero (hence exactly the midpoint whenever the two center
coordinates have an even sum). -/
theorem C6_equal_area_midpoint (b1 b2 : Box) (fh fw : ℤ)
    (harea : boxArea b1 = boxArea b2) (hpos : 0 < boxArea b1) :
    (calculate_region_of_interest [b1, b2] fh fw).1 =
      truncQ (((boxCenterX b1 : ℚ) + (boxCenterX b2 : ℚ)) / 2) ∧
    (calculate_region_of_interest [b1, b2] fh fw).2.1 =
      truncQ (((boxCenterY b1 : ℚ) + (boxCenterY b2 : ℚ)) / 2) := by
  have ht : totalArea [b1, b2] = boxArea b1 + boxArea b2 := by
    simp [totalArea]
  have hwx : weightedX [b1, b2] =
      boxCenterX b1 * boxArea b1 + boxCenterX b2 * boxArea b2 := by
    simp [weightedX]
  have hwy : weightedY [b1, b2] =
      boxCenterY b1 * boxArea b1 + boxCenterY b2 * boxArea b2 := by
    simp [weightedY]
  have htot : 0 < totalArea [b1, b2] := by
    rw [ht, ← harea]; omega
  have hQ : ((boxArea b1 : ℚ)) + (boxArea b1 : ℚ) ≠ 0 := by
    have : (0 : ℚ) < (boxArea b1 : ℚ) := by exact_mod_cast hpos
    positivity
  unfold calculate_region_of_interest
  rw [if_neg (by simp), if_pos htot]
  constructor
  · show truncQ _ = truncQ _
    congr 1
    rw [hwx, ht, ← harea]
    push_cast
    field_simp
    ring
  · show truncQ _ = truncQ _
    congr 1
    rw [hwy, ht, ← harea]
    push_cast
    field_simp
    ring

/-- Witness for the amended C6 with two 2×2 boxes at `x = 0` and `x = 10`. -/
theorem C6_equal_area_midpoint_witness :
    (boxArea ⟨0, 0, 2, 2⟩ = boxArea ⟨10, 0, 2, 2⟩ ∧
      0 < boxArea ⟨0, 0, 2, 2⟩) ∧
    ((calculate_region_of_interest [⟨0, 0, 2, 2⟩, ⟨10, 0, 2, 2⟩] 100 100).1 =
      truncQ (((boxCenterX ⟨0, 0, 2, 2⟩ : ℚ) +
        (boxCenterX ⟨10, 0, 2, 2⟩ : ℚ)) / 2) ∧
     (calculate_region_of_interest [⟨0, 0, 2, 2⟩, ⟨10, 0, 2, 2⟩] 100 100).2.1 =
      truncQ (((boxCenterY ⟨0, 0, 2, 2⟩ : ℚ) +
        (boxCenterY ⟨10, 0, 2, 2⟩ : ℚ)) / 2)) :=
  ⟨⟨by decide, by decide⟩,
   C6_equal_area_midpoint ⟨0, 0, 2, 2⟩ ⟨10, 0, 2, 2⟩ 100 100
     (by decide) (by decide)⟩

/-! ### C7: non-empty box list of total area zero -/

/-- **C7.** For every non-empty box list in which each box has zero width
or zero height, the total area is zero, no box ever qualifies as the
tracked largest box (`area > max_area` never fires, since `max_area`
starts at 0), and the aggregator deterministically returns the frame
center — the documented three-tier fallback, whose largest-box tier is
empty here. -/
theorem C7_zero_area_fallback (boxes : List Box) (fh fw : ℤ)
    (hne : boxes ≠ []) (hdeg : ∀ b ∈ boxes, b.w = 0 ∨ b.h = 0) :
    totalArea boxes = 0 ∧ largestBox boxes = none ∧
    calculate_region_of_interest boxes fh fw =
      (fw.fdiv 2, fh.fdiv 2, 0, 0) := by
  have hz : ∀ b ∈ boxes, boxArea b = 0 := by
    intro b hb
    rcases hdeg b hb with h | h <;> simp [boxArea, h]
  have ht : totalArea boxes = 0 := by
    unfold totalArea
    apply List.sum_eq_zero
    intro x hx
    obtain ⟨b, hb, rfl⟩ := List.mem_map.mp hx
    exact hz b hb
  have hl : largestBox boxes = none :=
    largestBoxAux_eq_acc boxes 0 none fun b hb => (hz b hb).le
  refine ⟨ht, hl, ?_⟩
  unfold calculate_region_of_interest
  rw [if_neg hne, if_neg (by rw [ht]; exact lt_irrefl 0), hl]

/-- Witness for C7: a single zero-width box. -/
theorem C7_zero_area_fallback_witness :
    ([⟨5, 5, 0, 3⟩] ≠ ([] : List Box) ∧
      (∀ b ∈ [(⟨5, 5, 0, 3⟩ : Box)], b.w = 0 ∨ b.h = 0)) ∧
    (totalArea [⟨5, 5, 0, 3⟩] = 0 ∧ largestBox [⟨5, 5, 0, 3⟩] = none ∧
      calculate_region_of_interest [⟨5, 5, 0, 3⟩] 10 8 =
        ((8 : ℤ).fdiv 2, (10 : ℤ).fdiv 2, 0, 0)) :=
  ⟨⟨by decide, by decide⟩,
   C7_zero_area_fallback [⟨5, 5, 0, 3⟩] 10 8 (by decide) (by decide)⟩

/-! ### C10: the largest-box fallback is unreachable under the invariant -/

/-- **C10.** Under the documented invariant `width ≥ 0 ∧ height ≥ 0`,
whenever a non-empty box list has total area zero every box has zero area,
so the strictly-greater comparison never sets `largest_box` and the
aggregator returns the frame center with zero reported dimensions — the
largest-box fallback tier is unreachable. -/
theorem C10_fallback_unreachable (boxes : List Box) (fh fw : ℤ)
    (hne : boxes ≠ []) (hnn : ∀ b ∈ boxes, 0 ≤ b.w ∧ 0 ≤ b.h)
    (ht : totalArea boxes = 0) :
    (∀ b ∈ boxes, boxArea b = 0) ∧ largestBox boxes = none ∧
    calculate_region_of_interest boxes fh fw =
      (fw.fdiv 2, fh.fdiv 2, 0, 0) := by
  have hz : ∀ b ∈ boxes, boxArea b = 0 := by
    apply area_zero_of_sum_zero boxes _ ht
    intro b hb
    have hwh := hnn b hb
    exact mul_nonneg hwh.1 hwh.2
  have hl : largestBox boxes = none :=
    largestBoxAux_eq_acc boxes 0 none fun b hb => (hz b hb).le
  refine ⟨hz, hl, ?_⟩
  unfold calculate_region_of_interest
  rw [if_neg hne, if_neg (by rw [ht]; exact lt_irrefl 0), hl]

/-- Witness for C10: two degenerate boxes with nonnegative dimensions. -/
theorem C10_fallback_unreachable_witness :
    ([⟨1, 2, 0, 5⟩, ⟨3, 4, 7, 0⟩] ≠ ([] : List Box) ∧
      (∀ b ∈ [(⟨1, 2, 0, 5⟩ : Box), ⟨3, 4, 7, 0⟩], 0 ≤ b.w ∧ 0 ≤ b.h) ∧
      totalArea [⟨1, 2, 0, 5⟩, ⟨3, 4, 7, 0⟩] = 0) ∧
    ((∀ b ∈ [(⟨1, 2, 0, 5⟩ : Box), ⟨3, 4, 7, 0⟩], boxArea b = 0) ∧
      largestBox [⟨1, 2, 0, 5⟩, ⟨3, 4, 7, 0⟩] = none ∧
      calculate_region_of_interest [⟨1, 2, 0, 5⟩, ⟨3, 4, 7, 0⟩] 6 4 =
        ((4 : ℤ).fdiv 2, (6 : ℤ).fdiv 2, 0, 0)) :=
  ⟨⟨by decide, by decide, by decide⟩,
   C10_fallback_unreachable [⟨1, 2, 0, 5⟩, ⟨3, 4, 7, 0⟩] 6 4
     (by decide) (by decide) (by decide)⟩

/-! ### C8: first-frame handling in the motion detector -/

/-- **C8 is false as stated.**  Invoked at `frame_idx = 0` — no predecessor
frame — the detector does not require the caller to have skipped it: the
guard at motion_detector.py lines 24-26 returns the empty box list itself,
even with a differencing body that would report motion.  The detector thus
*does* have a first-frame special case. -/
theorem C8_counterexample :
    detect_motion 3 0 (1 / 10) 500 (fun _ _ _ => [⟨1, 1, 2, 2⟩]) = [] ∧
    ([] : List Box) ≠ [⟨1, 1, 2, 2⟩] := by
  constructor
  · unfold detect_motion
    rw [if_pos (Or.inl (by decide))]
  · decide

/-- **C8 (amended).** The detector itself handles a missing predecessor:
for every `frame_idx < 1` (the first frame included) and every
`frame_idx ≥ len(frames)`, it returns the empty box list without invoking
the frame-differencing pipeline; callers need not skip the first frame. -/
theorem C8_guard (n : ℕ) (idx : ℤ) (th : ℚ) (ma : ℤ)
    (body : ℤ → ℚ → ℤ → List Box) (h : idx < 1 ∨ (n : ℤ) ≤ idx) :
    detect_motion n idx th ma body = [] := by
  unfold detect_motion
  exact if_pos h

/-- Witness for the amended C8: a one-frame sequence queried at index 0. -/
theorem C8_guard_witness :
    ((0 : ℤ) < 1 ∨ ((1 : ℕ) : ℤ) ≤ 0) ∧
    detect_motion 1 0 (1 / 10) 500 (fun _ _ _ => [⟨0, 0, 3, 3⟩]) = [] :=
  ⟨Or.inl (by decide),
   C8_guard 1 0 (1 / 10) 500 (fun _ _ _ => [⟨0, 0, 3, 3⟩]) (Or.inl (by decide))⟩

/-! ### C9: parameter validation -/

/-- **C9 is false as stated.**  The smoothing factor `2` is outside
`(0,1]`, yet the tracker does not fail: it applies the same formulas and
returns the ordinary position list `[(5,5)]` (the overshooting smoothed
value `int(50*(1-2) + 1*2) = -48` is clamped to the lower bound 5). -/
theorem C9_counterexample :
    ¬ (0 < (2 : ℚ) ∧ (2 : ℚ) ≤ 1) ∧
    track_viewport 100 100 [[⟨0, 0, 2, 2⟩]] 10 10 2 = [(5, 5)] := by
  constructor
  · norm_num
  · have h50 : Int.fdiv 100 2 = 50 := by decide
    simp only [track_viewport, trackAux, trackStep, roiSmallBox, minXBound,
      maxXBound, smoothVal, h50]
    rw [show ((50 : ℤ) : ℚ) * (1 - 2) + ((1 : ℤ) : ℚ) * 2 = ((-48 : ℤ) : ℚ) by
      push_cast; norm_num]
    rw [truncQ_intCast]
    decide

/-- **C9 (amended).** Neither operation validates its numeric parameters;
no fail-fast error path exists.  With an out-of-range smoothing factor the
tracker still emits one ordinary position per input frame, and with a
non-positive `min_area` (and any threshold) the detector still runs its
differencing pipeline on any in-range frame index. -/
theorem C9_no_validation (fw fh vw vh : ℤ) (boxes : List (List Box)) (f : ℚ)
    (hf : ¬ (0 < f ∧ f ≤ 1)) (th : ℚ) (ma : ℤ) (hma : ma ≤ 0)
    (body : ℤ → ℚ → ℤ → List Box) (n : ℕ) (idx : ℤ)
    (hidx : 1 ≤ idx ∧ idx < (n : ℤ)) :
    (track_viewport fw fh boxes vw vh f).length = boxes.length ∧
    detect_motion n idx th ma body = body idx th ma := by
  refine ⟨trackAux_length fw fh vw vh f boxes _, ?_⟩
  unfold detect_motion
  rw [if_neg (by omega)]

/-- Witness for the amended C9: `f = 2`, `min_area = 0`, frame index 1 of 3. -/
theorem C9_no_validation_witness :
    (¬ (0 < (2 : ℚ) ∧ (2 : ℚ) ≤ 1) ∧ (0 : ℤ) ≤ 0 ∧
      (1 : ℤ) ≤ 1 ∧ (1 : ℤ) < ((3 : ℕ) : ℤ)) ∧
    ((track_viewport 100 100 [[⟨0, 0, 2, 2⟩]] 10 10 2).length = 1 ∧
      detect_motion 3 1 (5 : ℚ) 0 (fun _ _ _ => [⟨2, 2, 4, 4⟩]) =
        [⟨2, 2, 4, 4⟩]) :=
  ⟨⟨by norm_num, le_refl 0, le_refl 1, by decide⟩,
   C9_no_validation 100 100 10 10 [[⟨0, 0, 2, 2⟩]] 2 (by norm_num) 5 0
     (le_refl 0) (fun _ _ _ => [⟨2, 2, 4, 4⟩]) 3 1 ⟨le_refl 1, by decide⟩⟩
